import Mathlib

/-!
# Verification of the PoH entry chain and its verifier (`src/ledger/src/entry.rs`)

A shallow embedding of the entry data model, the hash kernel, the three
PoH verification backends and the tick-count protocol, with theorems
settling the specification's claims about them.

Digests (32-byte SHA-256 hashes) are modelled as natural numbers.  The
low-level hash primitive (`Poh`), the Merkle-tree root and the native
SIMD/GPU batch-verify entry points live outside the embedded source
file; they are modelled from the specification's contracts, abstracted
over a record of primitive hash operations (`PohPrims`).  Everything
defined in `entry.rs` itself is translated directly from that source.
-/

namespace Solana

/-- Modelled from the spec: the hash primitive contract (spec §6).
A 32-byte digest is modelled as a `Nat`.  `hashStep` is one plain
SHA-256 iteration of the running digest; `mixStep` is one iteration
folding in a 32-byte mixin; `merkleRoot` builds a Merkle tree over a
sequence of signatures and returns its root, `none` when the sequence
is empty (the behaviour of `MerkleTree::get_root`). -/
structure PohPrims where
  hashStep : Nat → Nat
  mixStep : Nat → Nat → Nat
  merkleRoot : List Nat → Option Nat

/-- Modelled from the spec: a transaction, viewed through the only
operations this layer uses (spec §1 "external collaborators"): its
signature list, the outcome of `Transaction::verify()` and the outcome
of `Transaction::verify_precompiles()`.  A signature is modelled as a
`Nat`. -/
structure Transaction where
  signatures : List Nat
  sigVerifies : Bool
  precompilesOk : Bool
deriving DecidableEq, Repr

/-- Modelled from the spec: the stateful `Poh` object of `crate::poh`,
seeded with a digest (constructed here with `hashes_per_tick = None`,
so `tick` and `record` never fail). -/
structure Poh where
  hash : Nat
deriving DecidableEq, Repr

/-- `Poh::new(start_hash, None)`. -/
def Poh.new (start_hash : Nat) : Poh := ⟨start_hash⟩

/-- Modelled from the spec: `poh.hash(n)` advances the state by `n`
plain hash iterations. -/
def Poh.hashN (p : PohPrims) (poh : Poh) (n : Nat) : Poh :=
  ⟨p.hashStep^[n] poh.hash⟩

/-- Modelled from the spec: `poh.tick()` performs one more hash
iteration and returns the resulting digest (the `.unwrap().hash`
projection of the source, total because `hashes_per_tick` is `None`). -/
def Poh.tick (p : PohPrims) (poh : Poh) : Nat :=
  p.hashStep poh.hash

/-- Modelled from the spec: `poh.record(mixin)` performs one more
iteration folding in a 32-byte mixin and returns the resulting digest. -/
def Poh.record (p : PohPrims) (poh : Poh) (mixin : Nat) : Nat :=
  p.mixStep poh.hash mixin

/-- The `Entry` record of `entry.rs`: `num_hashes` (a `u64`), the
32-byte `hash`, and the transactions observed before it. -/
structure Entry where
  num_hashes : Nat
  hash : Nat
  transactions : List Transaction
deriving DecidableEq, Repr

instance : Inhabited Entry := ⟨⟨0, 0, []⟩⟩

/-- `Entry::is_tick`: an entry with no transactions is a tick. -/
def Entry.is_tick (e : Entry) : Bool := e.transactions.isEmpty

/-- `hash_transactions`: flatten the signatures of all transactions in
order, build a Merkle tree over them and return its root, or the
default (zero) hash when there is no root. -/
def hash_transactions (p : PohPrims) (transactions : List Transaction) : Nat :=
  let signatures := (transactions.map Transaction.signatures).flatten
  match p.merkleRoot signatures with
  | some root_hash => root_hash
  | none => 0

/-- `next_hash(start_hash, num_hashes, transactions)` from `entry.rs`:
returns `start_hash` when `num_hashes == 0` and there are no
transactions; otherwise seeds a `Poh` with `start_hash`, advances it by
`num_hashes.saturating_sub(1)` plain iterations, then finishes with one
`tick` (no transactions) or one `record` of `hash_transactions`. -/
def next_hash (p : PohPrims) (start_hash : Nat) (num_hashes : Nat)
    (transactions : List Transaction) : Nat :=
  if num_hashes = 0 ∧ transactions.isEmpty then start_hash
  else
    let poh := (Poh.new start_hash).hashN p (num_hashes - 1)
    if transactions.isEmpty then poh.tick p
    else poh.record p (hash_transactions p transactions)

/-- `Entry::new(prev_hash, num_hashes, transactions)`: promotes
`num_hashes` to 1 when the caller passed 0 with a non-empty transaction
list, then stores `next_hash` of the (promoted) count. -/
def Entry.new (p : PohPrims) (prev_hash : Nat) (num_hashes : Nat)
    (transactions : List Transaction) : Entry :=
  let num_hashes := if num_hashes = 0 ∧ ¬transactions.isEmpty then 1 else num_hashes
  { num_hashes := num_hashes
    hash := next_hash p prev_hash num_hashes transactions
    transactions := transactions }

/-- `Entry::verify(start_hash)`: recompute the expected hash with
`next_hash` and compare it with the stored `hash`. -/
def Entry.verify (p : PohPrims) (e : Entry) (start_hash : Nat) : Bool :=
  let ref_hash := next_hash p start_hash e.num_hashes e.transactions
  if e.hash ≠ ref_hash then false else true

/-- `next_entry(prev_hash, num_hashes, transactions)`: asserts
`num_hashes > 0 || transactions.is_empty()`; the assertion failure
(process abort) is embedded as `none`. -/
def next_entry (p : PohPrims) (prev_hash : Nat) (num_hashes : Nat)
    (transactions : List Transaction) : Option Entry :=
  if num_hashes > 0 ∨ transactions.isEmpty then
    some { num_hashes := num_hashes
           hash := next_hash p prev_hash num_hashes transactions
           transactions := transactions }
  else none

/-- `EntryVerificationStatus` from `entry.rs`. -/
inductive EntryVerificationStatus where
  | Failure
  | Success
  | Pending
deriving DecidableEq, Repr

/-- The payload of `GpuVerificationData`, minus the thread handle and
timing: the pinned buffer of previous hashes handed to the GPU worker,
the per-entry `num_hashes - 1` vector, and the precomputed per-entry
transaction hashes (`none` for ticks). -/
structure GpuVerificationData where
  hashes : List Nat
  num_hashes_vec : List Nat
  tx_hashes : List (Option Nat)
deriving DecidableEq, Repr

/-- `DeviceVerificationData` from `entry.rs`. -/
inductive DeviceVerificationData where
  | CPU : DeviceVerificationData
  | GPU : GpuVerificationData → DeviceVerificationData
deriving DecidableEq, Repr

/-- `EntryVerificationState` from `entry.rs`.  The two duration
counters are wall-clock observability values; in this embedding a
measured duration is modelled as 0, so only the literal assignments of
the source are visible. -/
structure EntryVerificationState where
  verification_status : EntryVerificationStatus
  poh_duration_us : Nat
  transaction_duration_us : Nat
  device_verification_data : DeviceVerificationData
deriving DecidableEq, Repr

/-- The synthetic genesis entry `(num_hashes = 0, hash = start_hash,
no transactions)` that the backends prepend to a slice. -/
def genesisEntry (start_hash : Nat) : Entry :=
  { num_hashes := 0, hash := start_hash, transactions := [] }

/-- `verify_cpu_generic`: zip the genesis-prepended slice against the
slice itself and check `x1.verify(&x0.hash)` for every pair. -/
def verify_cpu_generic (p : PohPrims) (es : List Entry) (start_hash : Nat) :
    EntryVerificationState :=
  let genesis := genesisEntry start_hash
  let entry_pairs := List.zip (genesis :: es) es
  let res := entry_pairs.all fun x => x.2.verify p x.1.hash
  { verification_status :=
      if res then EntryVerificationStatus.Success else EntryVerificationStatus.Failure
    poh_duration_us := 0
    transaction_duration_us := 0
    device_verification_data := DeviceVerificationData.CPU }

/-- `compare_hashes(computed_hash, ref_entry)`: the portable finalizing
step of the SIMD backend. -/
def compare_hashes (p : PohPrims) (computed_hash : Nat) (ref_entry : Entry) : Bool :=
  if ref_entry.num_hashes = 0 then computed_hash == ref_entry.hash
  else
    let poh := Poh.new computed_hash
    if ref_entry.transactions.isEmpty then poh.tick p == ref_entry.hash
    else
      let tx_hash := hash_transactions p ref_entry.transactions
      poh.record p tx_hash == ref_entry.hash

/-- Modelled from the spec: the native batch entry points
`poh_verify_many_simd_avx2` / `poh_verify_many_simd_avx512skx` advance
each lane's 32-byte hash in place by that lane's iteration count; both
widths share the same per-lane semantics. -/
def poh_verify_many_simd (p : PohPrims) (hashes : List Nat) (num_hashes : List Nat) :
    List Nat :=
  List.zipWith (fun h c => p.hashStep^[c] h) hashes num_hashes

/-- Modelled from the spec: the native GPU entry point
`poh_verify_many(hashes, num_hashes, length, 1)` advances every hash
lane by its iteration count (returning 0; a non-zero return aborts the
process and is not modelled). -/
def poh_verify_many (p : PohPrims) (hashes : List Nat) (num_hashes : List Nat) :
    List Nat :=
  List.zipWith (fun h c => p.hashStep^[c] h) hashes num_hashes

/-- `verify_cpu_x86_simd(start_hash, simd_len)`: build the
`aligned_len` buffer of previous hashes (genesis-prepended, zero
padded) and the `num_hashes.saturating_sub(1)` vector, hand each
`simd_len`-lane chunk to the native batch call, then run the portable
`compare_hashes` finalizing step on every real entry of the chunk.
The chunk iteration of the source is embedded by chunk index: chunk
`i` is lanes `[i * simd_len, i * simd_len + simd_len)` of the two
buffers (the source panics for a width other than 8 or 16; both
widths have the same modelled lane semantics). -/
def verify_cpu_x86_simd (p : PohPrims) (es : List Entry) (start_hash : Nat)
    (simd_len : Nat) : EntryVerificationState :=
  let len := es.length
  let aligned_len := ((len + simd_len - 1) / simd_len) * simd_len
  let hashes_bytes :=
    ((genesisEntry start_hash :: es).map Entry.hash).take len
      ++ List.replicate (aligned_len - len) 0
  let num_hashes :=
    es.map (fun e => e.num_hashes - 1) ++ List.replicate (aligned_len - len) 0
  let num_chunks := aligned_len / simd_len
  let res := (List.range num_chunks).all fun i =>
    let chunk := (hashes_bytes.drop (i * simd_len)).take simd_len
    let chunk_counts := (num_hashes.drop (i * simd_len)).take simd_len
    let advanced := poh_verify_many_simd p chunk chunk_counts
    let entry_start := i * simd_len
    let entry_end := min (entry_start + simd_len) len
    (List.range (entry_end - entry_start)).all fun j =>
      compare_hashes p (advanced.getD j 0) (es.getD (entry_start + j) default)
  { verification_status :=
      if res then EntryVerificationStatus.Success else EntryVerificationStatus.Failure
    poh_duration_us := 0
    transaction_duration_us := 0
    device_verification_data := DeviceVerificationData.CPU }

/-- The runtime capabilities consulted by the dispatcher: whether the
native SIMD library is loaded (`api()`), the AVX2 / AVX-512F CPU
features, and whether the GPU entry point is available
(`perf_libs::api()`). -/
structure PohCaps where
  simd_api : Bool
  has_avx2 : Bool
  has_avx512 : Bool
  gpu_api : Bool
deriving DecidableEq, Repr

/-- `verify_cpu`: dispatch between the wide-SIMD widths and the scalar
backend from the capability set and the slice length. -/
def verify_cpu (caps : PohCaps) (p : PohPrims) (es : List Entry) (start_hash : Nat) :
    EntryVerificationState :=
  if caps.simd_api then
    if caps.has_avx512 ∧ es.length ≥ 128 then verify_cpu_x86_simd p es start_hash 16
    else if caps.has_avx2 ∧ es.length ≥ 48 then verify_cpu_x86_simd p es start_hash 8
    else verify_cpu_generic p es start_hash
  else verify_cpu_generic p es start_hash

/-- `verify_transaction_signatures(secp256k1_program_enabled)`: every
transaction of every entry must `verify()`, and, when the secp256k1
program is enabled, must also pass `verify_precompiles()`. -/
def verify_transaction_signatures (es : List Entry)
    (secp256k1_program_enabled : Bool) : Bool :=
  es.all fun e =>
    e.transactions.all fun transaction =>
      let sig_verify := transaction.sigVerifies
      if sig_verify ∧ secp256k1_program_enabled ∧ ¬transaction.precompilesOk then
        false
      else sig_verify

/-- `start_verify(start_hash, recyclers, secp256k1_program_enabled)`:
run signature verification; on failure return a terminal `Failure`
state with `poh_duration_us = 0` and CPU device data.  Otherwise run a
CPU backend synchronously when no GPU entry point is available, or
launch the GPU backend — embedded as packaging the previous-hash
buffer, the `num_hashes - 1` vector and the precomputed transaction
hashes into a `GPU` payload of a `Pending` state. -/
def start_verify (caps : PohCaps) (p : PohPrims) (es : List Entry) (start_hash : Nat)
    (secp256k1_program_enabled : Bool) : EntryVerificationState :=
  let res := verify_transaction_signatures es secp256k1_program_enabled
  if ¬res then
    { verification_status := EntryVerificationStatus.Failure
      transaction_duration_us := 0
      poh_duration_us := 0
      device_verification_data := DeviceVerificationData.CPU }
  else if ¬caps.gpu_api then verify_cpu caps p es start_hash
  else
    let hashes := ((genesisEntry start_hash :: es).map Entry.hash).take es.length
    let num_hashes_vec := es.map fun e => e.num_hashes - 1
    let tx_hashes := es.map fun e =>
      if e.transactions.isEmpty then none
      else some (hash_transactions p e.transactions)
    { verification_status := EntryVerificationStatus.Pending
      poh_duration_us := 0
      transaction_duration_us := 0
      device_verification_data :=
        DeviceVerificationData.GPU
          { hashes := hashes, num_hashes_vec := num_hashes_vec, tx_hashes := tx_hashes } }

/-- `EntryVerificationState::finish_verify(entries)`: for a GPU state,
join the worker (modelled as applying the native `poh_verify_many`
advance to the buffer), run the finalizing check across all entries,
and settle the status; for a CPU state, report whether the status is
`Success`.  Returns the boolean together with the updated state. -/
def finish_verify (p : PohPrims) (st : EntryVerificationState) (entries : List Entry) :
    Bool × EntryVerificationState :=
  match st.device_verification_data with
  | DeviceVerificationData.GPU verification_state =>
    let hashes := poh_verify_many p verification_state.hashes
      verification_state.num_hashes_vec
    let res := ((hashes.zip verification_state.tx_hashes).zip entries).all fun x =>
      let hash := x.1.1
      let tx_hash := x.1.2
      let answer := x.2
      if answer.num_hashes = 0 then hash == answer.hash
      else
        let poh := Poh.new hash
        match tx_hash with
        | some mixin => poh.record p mixin == answer.hash
        | none => poh.tick p == answer.hash
    (res,
      { st with
          verification_status :=
            if res then EntryVerificationStatus.Success
            else EntryVerificationStatus.Failure })
  | DeviceVerificationData.CPU =>
    (st.verification_status == EntryVerificationStatus.Success, st)

/-- `EntrySlice::verify(start_hash)`: `start_verify` with default
recyclers and secp256k1 enabled, then `finish_verify`. -/
def EntrySlice.verify (caps : PohCaps) (p : PohPrims) (es : List Entry)
    (start_hash : Nat) : Bool :=
  (finish_verify p (start_verify caps p es start_hash true) es).1

/-- `u64` modulus: the carry additions of `verify_tick_hash_count` are
`u64` arithmetic. -/
def U64 : Nat := 2 ^ 64

/-- The loop of `verify_tick_hash_count` over the slice, carrying the
mutable `tick_hash_count`; an early `return false` leaves the carry at
its current value, and falling off the slice checks
`tick_hash_count < hashes_per_tick`. -/
def verify_tick_hash_count_loop (hashes_per_tick : Nat) :
    List Entry → Nat → Bool × Nat
  | [], tick_hash_count => (decide (tick_hash_count < hashes_per_tick), tick_hash_count)
  | e :: rest, tick_hash_count =>
    let tick_hash_count := (tick_hash_count + e.num_hashes) % U64
    if e.is_tick then
      if tick_hash_count ≠ hashes_per_tick then (false, tick_hash_count)
      else verify_tick_hash_count_loop hashes_per_tick rest 0
    else verify_tick_hash_count_loop hashes_per_tick rest tick_hash_count

/-- `verify_tick_hash_count(&mut tick_hash_count, hashes_per_tick)`:
accept unconditionally when `hashes_per_tick == 0`; otherwise walk the
slice accumulating `num_hashes` into the carry, requiring every tick
to land exactly on `hashes_per_tick` (then resetting the carry) and
the final carry to be strictly below `hashes_per_tick`.  Returns the
boolean together with the final carry (the `&mut` out-parameter). -/
def verify_tick_hash_count (es : List Entry) (tick_hash_count : Nat)
    (hashes_per_tick : Nat) : Bool × Nat :=
  if hashes_per_tick = 0 then (true, tick_hash_count)
  else verify_tick_hash_count_loop hashes_per_tick es tick_hash_count

/-- `EntrySlice::tick_count`: the number of tick entries. -/
def tick_count (es : List Entry) : Nat :=
  (es.filter Entry.is_tick).length

/-- Spec-side description of the tick-count walk: the carry value
reached at each entry — the running `u64` sum of `num_hashes` since
the previous tick (or slice start), evaluated just after adding the
entry's own `num_hashes` (before any reset). -/
def carryTrace (tick_hash_count : Nat) : List Entry → List Nat
  | [] => []
  | e :: rest =>
    let c := (tick_hash_count + e.num_hashes) % U64
    c :: carryTrace (if e.is_tick then 0 else c) rest

/-- Spec-side description of the tick-count walk: the carry remaining
at slice end, with the carry reset to 0 at every tick. -/
def finalCarry (tick_hash_count : Nat) : List Entry → Nat
  | [] => tick_hash_count
  | e :: rest =>
    let c := (tick_hash_count + e.num_hashes) % U64
    finalCarry (if e.is_tick then 0 else c) rest

/-- A concrete instance of the modelled hash primitives, used to
evaluate the theorems on explicit inputs. -/
def P0 : PohPrims :=
  { hashStep := fun h => h + 1
    mixStep := fun h m => 2 * h + m + 1
    merkleRoot := fun l => match l with | [] => none | _ => some (l.sum + 7) }

/-- A concrete transaction whose signature checks pass. -/
def tx1 : Transaction := { signatures := [1], sigVerifies := true, precompilesOk := true }

/-- A concrete transaction whose `verify()` fails. -/
def txBad : Transaction := { signatures := [2], sigVerifies := false, precompilesOk := true }

/-- A capability set with every backend available. -/
def capsAll : PohCaps :=
  { simd_api := true, has_avx2 := true, has_avx512 := true, gpu_api := true }

/-- An entry violating invariant I2: `num_hashes = 0` with a non-empty
transaction list, its stored hash equal to the predecessor hash. -/
def badI2Entry : Entry := { num_hashes := 0, hash := 5, transactions := [tx1] }

/-- A degenerate no-op tick (`num_hashes = 0`) whose hash repeats the
predecessor hash `5`, so it verifies against it. -/
def nopTickEntry : Entry := { num_hashes := 0, hash := 5, transactions := [] }

/-- A 128-entry slice (long enough for every backend's eligibility
threshold) starting with the I2-violating entry. -/
def esBackends : List Entry := badI2Entry :: List.replicate 127 nopTickEntry

/-- A concrete valid one-tick slice for start hash `5` under `P0`. -/
def esGood : List Entry := [{ num_hashes := 1, hash := 6, transactions := [] }]

/-- A concrete entry holding a transaction whose signature check fails. -/
def badSigEntry : Entry := { num_hashes := 1, hash := 0, transactions := [txBad] }

/-! ## Helper lemmas -/

theorem entry_new_verify_any (p : PohPrims) (prev_hash n : Nat)
    (txs : List Transaction) : (Entry.new p prev_hash n txs).verify p prev_hash = true := by
  simp [Entry.new, Entry.verify]

theorem status_if_eq_success (res : Bool) :
    ((if res then EntryVerificationStatus.Success else EntryVerificationStatus.Failure)
      = EntryVerificationStatus.Success) ↔ res = true := by
  cases res <;> simp

theorem zip_all_getD_iff {α β : Type} [Inhabited α] [Inhabited β]
    (xs : List α) (ys : List β) (f : α → β → Bool) :
    ((xs.zip ys).all fun x => f x.1 x.2) = true ↔
      ∀ i, i < xs.length → i < ys.length →
        f (xs.getD i default) (ys.getD i default) = true := by
  induction xs generalizing ys with
  | nil => simp
  | cons x xs ih =>
    cases ys with
    | nil => simp
    | cons y ys =>
      simp only [List.zip_cons_cons, List.all_cons, Bool.and_eq_true, ih,
        List.length_cons]
      constructor
      · rintro ⟨h0, hrest⟩ i hi1 hi2
        cases i with
        | zero => simpa using h0
        | succ i =>
          simpa using hrest i (by omega) (by omega)
      · intro h
        refine ⟨by simpa using h 0 (by omega) (by omega), fun i hi1 hi2 => ?_⟩
        simpa using h (i + 1) (by omega) (by omega)

theorem verify_cpu_generic_success_iff (p : PohPrims) (es : List Entry)
    (start_hash : Nat) :
    (verify_cpu_generic p es start_hash).verification_status
        = EntryVerificationStatus.Success ↔
      ∀ i, i < es.length →
        (es.getD i default).verify p
          (((genesisEntry start_hash :: es).getD i default).hash) = true := by
  have hst : (verify_cpu_generic p es start_hash).verification_status =
      (if ((genesisEntry start_hash :: es).zip es).all
            (fun x => x.2.verify p x.1.hash) then
        EntryVerificationStatus.Success else EntryVerificationStatus.Failure) := rfl
  rw [hst, status_if_eq_success,
    zip_all_getD_iff (genesisEntry start_hash :: es) es
      (fun a b => b.verify p a.hash)]
  constructor
  · intro h i hi
    exact h i (by simp; omega) hi
  · intro h i _ hi2
    exact h i hi2

/-! ## Claims -/

/-- C1: the scalar backend `verify_cpu_generic` returns `Success` iff
every entry of the slice verifies against its predecessor's stored
hash, the predecessor of entry `i` being the synthetic genesis entry
`(num_hashes = 0, hash = start_hash, no transactions)` for `i = 0` and
`slice[i-1]` for `i ≥ 1`. -/
theorem verify_cpu_generic_description (p : PohPrims) (es : List Entry)
    (start_hash : Nat) :
    (verify_cpu_generic p es start_hash).verification_status
        = EntryVerificationStatus.Success ↔
      ∀ i, i < es.length →
        (es.getD i default).verify p
          (((genesisEntry start_hash :: es).getD i default).hash) = true :=
  verify_cpu_generic_success_iff p es start_hash

/-- Witness for C1 at the concrete valid slice `esGood`. -/
theorem verify_cpu_generic_description_witness :
    (verify_cpu_generic P0 esGood 5).verification_status
      = EntryVerificationStatus.Success :=
  (verify_cpu_generic_description P0 esGood 5).mpr (by decide)

/-- C2: `next_hash(start, n, txs)` returns `start` unchanged when
`n = 0` and `txs` is empty; otherwise it advances a PoH state seeded
with `start` by `n - 1` plain iterations (saturating) and finishes
with one tick step (empty `txs`, so `n` total plain iterations) or one
record step mixing in `hash_transactions txs`. -/
theorem next_hash_description (p : PohPrims) (start_hash n : Nat)
    (txs : List Transaction) :
    next_hash p start_hash n txs =
      if n = 0 ∧ txs.isEmpty then start_hash
      else if txs.isEmpty then p.hashStep^[n] start_hash
      else p.mixStep (p.hashStep^[n - 1] start_hash) (hash_transactions p txs) := by
  by_cases h0 : n = 0 ∧ txs.isEmpty
  · simp [next_hash, h0]
  · by_cases he : txs.isEmpty
    · have hn : n ≠ 0 := fun h => h0 ⟨h, he⟩
      obtain ⟨m, rfl⟩ : ∃ m, n = m + 1 :=
        ⟨n - 1, (Nat.succ_pred_eq_of_pos (Nat.pos_of_ne_zero hn)).symm⟩
      simp [next_hash, h0, he, Poh.new, Poh.hashN, Poh.tick,
        Function.iterate_succ_apply']
    · simp [next_hash, h0, he, Poh.new, Poh.hashN, Poh.record]

/-- C3: an entry built by `Entry::new(start, n, txs)` with
`n > 0 ∨ txs = []` verifies against the hash it was built from. -/
theorem entry_new_verifies (p : PohPrims) (start_hash n : Nat)
    (txs : List Transaction) (_h : 0 < n ∨ txs = []) :
    (Entry.new p start_hash n txs).verify p start_hash = true :=
  entry_new_verify_any p start_hash n txs

/-- Witness for C3 at `start = 5`, `n = 1`, `txs = []` under `P0`. -/
theorem entry_new_verifies_witness :
    (0 < 1 ∨ ([] : List Transaction) = [])
    ∧ (Entry.new P0 5 1 []).verify P0 5 = true :=
  ⟨Or.inl (by decide), entry_new_verifies P0 5 1 [] (Or.inl (by decide))⟩

/-- C6: when transaction-signature verification fails, `start_verify`
returns a terminal `Failure` state with `poh_duration_us = 0` and CPU
device data; the result does not depend on any PoH backend. -/
theorem start_verify_signature_failure (caps : PohCaps) (p : PohPrims)
    (es : List Entry) (start_hash : Nat) (secp256k1_program_enabled : Bool)
    (h : verify_transaction_signatures es secp256k1_program_enabled = false) :
    start_verify caps p es start_hash secp256k1_program_enabled =
      { verification_status := EntryVerificationStatus.Failure
        poh_duration_us := 0
        transaction_duration_us := 0
        device_verification_data := DeviceVerificationData.CPU } := by
  simp [start_verify, h]

/-- Witness for C6 at a one-entry slice holding a transaction whose
`verify()` fails. -/
theorem start_verify_signature_failure_witness :
    verify_transaction_signatures [badSigEntry] true = false
    ∧ start_verify capsAll P0 [badSigEntry] 5 true =
      { verification_status := EntryVerificationStatus.Failure
        poh_duration_us := 0
        transaction_duration_us := 0
        device_verification_data := DeviceVerificationData.CPU } :=
  ⟨by decide, start_verify_signature_failure capsAll P0 [badSigEntry] 5 true (by decide)⟩

/-- C7: `Entry::new` preserves invariant I2: `num_hashes = 0` on the
result forces an empty transaction list; the constructor promotes
`num_hashes` to 1 exactly when the caller passed 0 with non-empty
transactions, and keeps the transactions unchanged. -/
theorem entry_new_invariant (p : PohPrims) (prev_hash n : Nat)
    (txs : List Transaction) :
    ((Entry.new p prev_hash n txs).num_hashes = 0 →
      (Entry.new p prev_hash n txs).transactions = [])
    ∧ (Entry.new p prev_hash n txs).num_hashes =
        (if n = 0 ∧ ¬txs.isEmpty then 1 else n)
    ∧ (Entry.new p prev_hash n txs).transactions = txs := by
  refine ⟨?_, ?_, ?_⟩
  · intro h0
    by_cases h : n = 0 ∧ ¬txs.isEmpty
    · simp [Entry.new, h] at h0
    · simp only [Entry.new, if_neg h] at h0 ⊢
      rcases Decidable.not_and_iff_or_not.mp h with hn | hemp
      · exact absurd h0 hn
      · exact List.isEmpty_iff.mp (Decidable.not_not.mp hemp)
  · by_cases h : n = 0 ∧ ¬txs.isEmpty <;> simp [Entry.new, h]
  · simp [Entry.new]

/-- Witness for C7 at the promoting input `n = 0`, `txs = [tx1]`. -/
theorem entry_new_invariant_witness :
    ((Entry.new P0 5 0 [tx1]).num_hashes = 0 →
      (Entry.new P0 5 0 [tx1]).transactions = [])
    ∧ (Entry.new P0 5 0 [tx1]).num_hashes =
        (if (0 : Nat) = 0 ∧ ¬([tx1] : List Transaction).isEmpty then 1 else 0)
    ∧ (Entry.new P0 5 0 [tx1]).transactions = [tx1] :=
  entry_new_invariant P0 5 0 [tx1]

/-- C8: `next_entry(prev, n, txs)` hits its assertion (embedded as
`none`) exactly when `n = 0` with non-empty `txs`; under the
precondition `n > 0 ∨ txs = []` it returns the entry with
`num_hashes = n`, `hash = next_hash(prev, n, txs)` and the given
transactions. -/
theorem next_entry_description (p : PohPrims) (prev_hash n : Nat)
    (txs : List Transaction) :
    (next_entry p prev_hash n txs = none ↔ n = 0 ∧ txs ≠ [])
    ∧ ((0 < n ∨ txs = []) →
        next_entry p prev_hash n txs =
          some { num_hashes := n, hash := next_hash p prev_hash n txs
                 transactions := txs }) := by
  constructor
  · unfold next_entry
    split
    · rename_i hc
      simp only [reduceCtorEq, false_iff]
      rintro ⟨h0, hne⟩
      rcases hc with hpos | hemp
      · omega
      · exact hne (List.isEmpty_iff.mp hemp)
    · rename_i hc
      rw [not_or] at hc
      simp only [true_iff]
      exact ⟨by omega, fun h => hc.2 (by simp [h])⟩
  · intro h
    rw [next_entry, if_pos]
    rcases h with h | h
    · exact Or.inl h
    · exact Or.inr (by simp [h])

/-- Witness for C8's conditional part at `n = 1`, `txs = []`. -/
theorem next_entry_description_witness :
    (next_entry P0 5 1 [] = none ↔ (1 : Nat) = 0 ∧ ([] : List Transaction) ≠ [])
    ∧ ((0 < 1 ∨ ([] : List Transaction) = []) →
        next_entry P0 5 1 [] =
          some { num_hashes := 1, hash := next_hash P0 5 1 []
                 transactions := [] }) :=
  next_entry_description P0 5 1 []

theorem carryTrace_cons (c : Nat) (e : Entry) (rest : List Entry) :
    carryTrace c (e :: rest) =
      (c + e.num_hashes) % U64 ::
        carryTrace (if e.is_tick then 0 else (c + e.num_hashes) % U64) rest := rfl

theorem finalCarry_cons (c : Nat) (e : Entry) (rest : List Entry) :
    finalCarry c (e :: rest) =
      finalCarry (if e.is_tick then 0 else (c + e.num_hashes) % U64) rest := rfl

theorem tick_loop_iff (hashes_per_tick : Nat) (es : List Entry) (carry : Nat) :
    (verify_tick_hash_count_loop hashes_per_tick es carry).1 = true ↔
      ((∀ i, i < es.length → (es.getD i default).is_tick = true →
          (carryTrace carry es).getD i 0 = hashes_per_tick)
       ∧ finalCarry carry es < hashes_per_tick) := by
  induction es generalizing carry with
  | nil => simp [verify_tick_hash_count_loop, carryTrace, finalCarry]
  | cons e rest ih =>
    by_cases ht : e.is_tick
    · by_cases hc : (carry + e.num_hashes) % U64 = hashes_per_tick
      · rw [show verify_tick_hash_count_loop hashes_per_tick (e :: rest) carry
            = verify_tick_hash_count_loop hashes_per_tick rest 0 from by
          simp [verify_tick_hash_count_loop, ht, hc]]
        rw [ih 0, carryTrace_cons, finalCarry_cons, if_pos ht]
        constructor
        · rintro ⟨hall, hfin⟩
          refine ⟨fun i hi hti => ?_, hfin⟩
          cases i with
          | zero => simpa using hc
          | succ i =>
            simp only [List.getD_cons_succ] at hti ⊢
            exact hall i (by simpa using hi) hti
        · rintro ⟨hall, hfin⟩
          refine ⟨fun i hi hti => ?_, hfin⟩
          simp only [List.length_cons] at hi
          exact hall (i + 1) (by simp only [List.length_cons]; omega)
            (by simpa using hti)
      · rw [show verify_tick_hash_count_loop hashes_per_tick (e :: rest) carry
            = (false, (carry + e.num_hashes) % U64) from by
          simp [verify_tick_hash_count_loop, ht, hc]]
        constructor
        · intro h
          simp at h
        · rintro ⟨hall, -⟩
          have h0 := hall 0 (by simp) (by simpa using ht)
          rw [carryTrace_cons] at h0
          simp only [List.getD_cons_zero] at h0
          exact absurd h0 hc
    · rw [show verify_tick_hash_count_loop hashes_per_tick (e :: rest) carry
          = verify_tick_hash_count_loop hashes_per_tick rest
              ((carry + e.num_hashes) % U64) from by
        simp [verify_tick_hash_count_loop, ht]]
      rw [ih, carryTrace_cons, finalCarry_cons, if_neg ht]
      constructor
      · rintro ⟨hall, hfin⟩
        refine ⟨fun i hi hti => ?_, hfin⟩
        cases i with
        | zero =>
          simp only [List.getD_cons_zero] at hti
          exact absurd hti ht
        | succ i =>
          simp only [List.getD_cons_succ] at hti ⊢
          exact hall i (by simpa using hi) hti
      · rintro ⟨hall, hfin⟩
        refine ⟨fun i hi hti => ?_, hfin⟩
        simp only [List.length_cons] at hi
        exact hall (i + 1) (by simp only [List.length_cons]; omega)
          (by simpa using hti)

/-- C4: with `hashes_per_tick > 0`, `verify_tick_hash_count` returns
`true` iff, walking the slice in order and accumulating each entry's
`num_hashes` into the carry (in `u64` arithmetic, resetting the carry
to 0 after each tick), every tick entry is reached with the carry
exactly `hashes_per_tick`, and the carry remaining at slice end is
strictly below `hashes_per_tick`. -/
theorem verify_tick_hash_count_description (es : List Entry)
    (tick_hash_count hashes_per_tick : Nat) (hpos : 0 < hashes_per_tick) :
    (verify_tick_hash_count es tick_hash_count hashes_per_tick).1 = true ↔
      ((∀ i, i < es.length → (es.getD i default).is_tick = true →
          (carryTrace tick_hash_count es).getD i 0 = hashes_per_tick)
       ∧ finalCarry tick_hash_count es < hashes_per_tick) := by
  rw [verify_tick_hash_count, if_neg (by omega)]
  exact tick_loop_iff hashes_per_tick es tick_hash_count

/-- Witness for C4 at the spec's scenario 5: a transaction entry with
one hash followed by a nine-hash tick, `hashes_per_tick = 10`. -/
theorem verify_tick_hash_count_description_witness :
    (0 : Nat) < 10 ∧
      ((∀ i, i < ([{ num_hashes := 1, hash := 0, transactions := [tx1] },
            { num_hashes := 9, hash := 0, transactions := [] }] : List Entry).length →
          (([{ num_hashes := 1, hash := 0, transactions := [tx1] },
            { num_hashes := 9, hash := 0, transactions := [] }] : List Entry).getD i
              default).is_tick = true →
          (carryTrace 0 [{ num_hashes := 1, hash := 0, transactions := [tx1] },
            { num_hashes := 9, hash := 0, transactions := [] }]).getD i 0 = 10)
       ∧ finalCarry 0 [{ num_hashes := 1, hash := 0, transactions := [tx1] },
            { num_hashes := 9, hash := 0, transactions := [] }] < 10) :=
  ⟨by decide,
    (verify_tick_hash_count_description
      [{ num_hashes := 1, hash := 0, transactions := [tx1] },
       { num_hashes := 9, hash := 0, transactions := [] }] 0 10 (by decide)).mp
      (by decide)⟩

/-- C9: with `hashes_per_tick = 0` the tick-count check accepts any
slice and leaves the carry untouched. -/
theorem tick_hash_count_disabled (es : List Entry) (tick_hash_count : Nat) :
    verify_tick_hash_count es tick_hash_count 0 = (true, tick_hash_count) := by
  simp [verify_tick_hash_count]

theorem nat_beq_comm (a b : Nat) : (a == b) = (b == a) := by
  rcases eq_or_ne a b with h | h
  · rw [h]
  · rw [show (a == b) = false from by simp [h],
      show (b == a) = false from by simp [Ne.symm h]]

theorem entry_verify_eq (p : PohPrims) (e : Entry) (start_hash : Nat) :
    e.verify p start_hash
      = (e.hash == next_hash p start_hash e.num_hashes e.transactions) := by
  by_cases h : e.hash = next_hash p start_hash e.num_hashes e.transactions <;>
    simp [Entry.verify, h]

theorem compare_hashes_iterate (p : PohPrims) (start_hash : Nat) (e : Entry)
    (hI2 : e.num_hashes ≠ 0 ∨ e.transactions.isEmpty = true) :
    compare_hashes p (p.hashStep^[e.num_hashes - 1] start_hash) e
      = e.verify p start_hash := by
  rw [entry_verify_eq]
  by_cases h0 : e.num_hashes = 0
  · have he : e.transactions.isEmpty = true := by
      rcases hI2 with h | h
      · exact absurd h0 h
      · exact h
    rw [compare_hashes, if_pos h0, next_hash, if_pos ⟨h0, he⟩, h0]
    simp [nat_beq_comm]
  · by_cases he : e.transactions.isEmpty <;>
      simp [compare_hashes, next_hash, h0, he, Poh.new, Poh.hashN, Poh.tick,
        Poh.record, nat_beq_comm, eq_comm]

theorem le_ceil_mul (len W : Nat) (hW : 0 < W) : len ≤ (len + W - 1) / W * W := by
  have h := Nat.div_add_mod (len + W - 1) W
  have hr : (len + W - 1) % W < W := Nat.mod_lt _ hW
  rw [Nat.mul_comm]
  revert h
  generalize W * ((len + W - 1) / W) = x
  intro h
  omega

theorem map_getD_of_lt {α β : Type} [Inhabited α] [Inhabited β] (f : α → β)
    (l : List α) (k : Nat) (hk : k < l.length) :
    (l.map f).getD k default = f (l.getD k default) := by
  rw [List.getD_eq_getElem _ _ (by rw [List.length_map]; exact hk),
    List.getElem_map, List.getD_eq_getElem _ _ hk]

theorem simd_chunk_lane (p : PohPrims) (buf cnts : List Nat) (W i j : Nat)
    (hjW : j < W) (hb : i * W + j < buf.length) (hc : i * W + j < cnts.length) :
    (poh_verify_many_simd p ((buf.drop (i * W)).take W)
        ((cnts.drop (i * W)).take W)).getD j 0
      = p.hashStep^[cnts[i * W + j]] buf[i * W + j] := by
  rw [List.getD_eq_getElem?_getD, poh_verify_many_simd, List.getElem?_zipWith]
  have h1 : ((buf.drop (i * W)).take W)[j]? = some buf[i * W + j] := by
    rw [List.getElem?_take, if_pos hjW, List.getElem?_drop,
      List.getElem?_eq_getElem hb]
  have h2 : ((cnts.drop (i * W)).take W)[j]? = some cnts[i * W + j] := by
    rw [List.getElem?_take, if_pos hjW, List.getElem?_drop,
      List.getElem?_eq_getElem hc]
  rw [h1, h2]
  rfl

theorem simd_buf_elem (es : List Entry) (start_hash pad k : Nat)
    (hk : k < es.length) :
    (((genesisEntry start_hash :: es).map Entry.hash).take es.length
        ++ List.replicate pad 0)[k]?
      = some ((genesisEntry start_hash :: es).getD k default).hash := by
  have hlen : ((((genesisEntry start_hash :: es).map Entry.hash).take
      es.length)).length = es.length := by
    simp [List.length_take]
  rw [List.getElem?_append, hlen, if_pos hk, List.getElem?_take, if_pos hk,
    List.getElem?_map,
    List.getElem?_eq_getElem
      (show k < (genesisEntry start_hash :: es).length by simp; omega),
    List.getD_eq_getElem _ _
      (show k < (genesisEntry start_hash :: es).length by simp; omega)]
  rfl

theorem simd_cnt_elem (es : List Entry) (pad k : Nat) (hk : k < es.length) :
    ((es.map (fun e => e.num_hashes - 1)) ++ List.replicate pad 0)[k]?
      = some ((es.getD k default).num_hashes - 1) := by
  rw [List.getElem?_append, List.length_map, if_pos hk, List.getElem?_map,
    List.getElem?_eq_getElem hk, List.getD_eq_getElem _ _ hk]
  rfl

theorem simd_lane_eq (p : PohPrims) (es : List Entry) (start_hash pad W i j : Nat)
    (hjW : j < W) (hk : i * W + j < es.length) :
    (poh_verify_many_simd p
        (((((genesisEntry start_hash :: es).map Entry.hash).take es.length
            ++ List.replicate pad 0).drop (i * W)).take W)
        ((((es.map (fun (e : Entry) => e.num_hashes - 1))
            ++ List.replicate pad 0).drop (i * W)).take W)).getD j 0
      = p.hashStep^[(es.getD (i * W + j) default).num_hashes - 1]
          (((genesisEntry start_hash :: es).getD (i * W + j) default).hash) := by
  have hb : i * W + j < (((genesisEntry start_hash :: es).map Entry.hash).take
      es.length ++ List.replicate pad 0).length := by
    simp only [List.length_append, List.length_take, List.length_map,
      List.length_cons, List.length_replicate]
    omega
  have hc : i * W + j < ((es.map (fun (e : Entry) => e.num_hashes - 1))
      ++ List.replicate pad 0).length := by
    simp only [List.length_append, List.length_map, List.length_replicate]
    omega
  rw [simd_chunk_lane p _ _ W i j hjW hb hc]
  have h1 := simd_buf_elem es start_hash pad (i * W + j) hk
  rw [List.getElem?_eq_getElem hb, Option.some.injEq] at h1
  have h2 := simd_cnt_elem es pad (i * W + j) hk
  rw [List.getElem?_eq_getElem hc, Option.some.injEq] at h2
  rw [h1, h2]

theorem verify_cpu_x86_simd_success_iff (p : PohPrims) (es : List Entry)
    (start_hash W : Nat) (hW : 0 < W) :
    ((verify_cpu_x86_simd p es start_hash W).verification_status
        = EntryVerificationStatus.Success) ↔
      ∀ k, k < es.length →
        compare_hashes p
          (p.hashStep^[(es.getD k default).num_hashes - 1]
            (((genesisEntry start_hash :: es).getD k default).hash))
          (es.getD k default) = true := by
  have hst : (verify_cpu_x86_simd p es start_hash W).verification_status =
      (if (List.range ((es.length + W - 1) / W * W / W)).all (fun i =>
          (List.range (min (i * W + W) es.length - i * W)).all fun j =>
            compare_hashes p
              ((poh_verify_many_simd p
                  (((((genesisEntry start_hash :: es).map Entry.hash).take es.length
                      ++ List.replicate ((es.length + W - 1) / W * W - es.length) 0).drop
                      (i * W)).take W)
                  ((((es.map (fun (e : Entry) => e.num_hashes - 1))
                      ++ List.replicate ((es.length + W - 1) / W * W - es.length) 0).drop
                      (i * W)).take W)).getD j 0)
              (es.getD (i * W + j) default)) then
        EntryVerificationStatus.Success else EntryVerificationStatus.Failure) := rfl
  rw [hst, status_if_eq_success, List.all_eq_true]
  simp only [List.mem_range]
  constructor
  · intro h k hk
    have hknc : k / W < (es.length + W - 1) / W * W / W := by
      rw [Nat.mul_div_cancel _ hW]
      exact (Nat.div_lt_iff_lt_mul hW).mpr
        (lt_of_lt_of_le hk (le_ceil_mul es.length W hW))
    have h2 := h (k / W) hknc
    rw [List.all_eq_true] at h2
    have hdm : k / W * W + k % W = k := Nat.div_add_mod' k W
    have hmW : k % W < W := Nat.mod_lt _ hW
    have hjm : k % W < min (k / W * W + W) es.length - k / W * W := by
      revert hdm
      generalize k / W * W = a
      intro hdm
      omega
    have hk2 : k / W * W + k % W < es.length := by omega
    have h3 := h2 (k % W) (List.mem_range.mpr hjm)
    rw [simd_lane_eq p es start_hash _ W (k / W) (k % W) hmW hk2] at h3
    rw [hdm] at h3
    exact h3
  · intro h i _
    rw [List.all_eq_true]
    intro j hj
    rw [List.mem_range] at hj
    have hjance : j < W ∧ i * W + j < es.length := by
      revert hj
      generalize i * W = a
      intro hj
      omega
    rw [simd_lane_eq p es start_hash _ W i j hjance.1 hjance.2]
    exact h (i * W + j) hjance.2

theorem zip3_all_getD_iff {α β γ : Type} [Inhabited α] [Inhabited β] [Inhabited γ]
    (xs : List α) (ys : List β) (zs : List γ) (f : (α × β) × γ → Bool) :
    (((xs.zip ys).zip zs).all f) = true ↔
      ∀ i, i < xs.length → i < ys.length → i < zs.length →
        f ((xs.getD i default, ys.getD i default), zs.getD i default) = true := by
  induction xs generalizing ys zs with
  | nil => simp
  | cons x xs ih =>
    cases ys with
    | nil => simp
    | cons y ys =>
      cases zs with
      | nil => simp
      | cons z zs =>
        simp only [List.zip_cons_cons, List.all_cons, Bool.and_eq_true, ih,
          List.length_cons]
        constructor
        · rintro ⟨h0, hrest⟩ i hi1 hi2 hi3
          cases i with
          | zero => simpa using h0
          | succ i => simpa using hrest i (by omega) (by omega) (by omega)
        · intro h
          refine ⟨by simpa using h 0 (by omega) (by omega) (by omega),
            fun i hi1 hi2 hi3 => ?_⟩
          simpa using h (i + 1) (by omega) (by omega) (by omega)

theorem gpu_prev_elem (es : List Entry) (start_hash k : Nat) (hk : k < es.length) :
    (((genesisEntry start_hash :: es).map Entry.hash).take es.length)[k]?
      = some ((genesisEntry start_hash :: es).getD k default).hash := by
  rw [List.getElem?_take, if_pos hk, List.getElem?_map,
    List.getElem?_eq_getElem
      (show k < (genesisEntry start_hash :: es).length by simp; omega),
    List.getD_eq_getElem _ _
      (show k < (genesisEntry start_hash :: es).length by simp; omega)]
  rfl

theorem gpu_cnt_elem (es : List Entry) (k : Nat) (hk : k < es.length) :
    (es.map (fun (e : Entry) => e.num_hashes - 1))[k]?
      = some ((es.getD k default).num_hashes - 1) := by
  rw [List.getElem?_map, List.getElem?_eq_getElem hk, List.getD_eq_getElem _ _ hk]
  rfl

theorem gpu_lane_eq (p : PohPrims) (es : List Entry) (start_hash k : Nat)
    (hk : k < es.length) :
    (poh_verify_many p
        (((genesisEntry start_hash :: es).map Entry.hash).take es.length)
        (es.map (fun (e : Entry) => e.num_hashes - 1))).getD k default
      = p.hashStep^[(es.getD k default).num_hashes - 1]
          (((genesisEntry start_hash :: es).getD k default).hash) := by
  rw [List.getD_eq_getElem?_getD, poh_verify_many, List.getElem?_zipWith,
    gpu_prev_elem es start_hash k hk, gpu_cnt_elem es k hk]
  rfl

theorem gpu_body_eq_compare (p : PohPrims) (h : Nat) (e : Entry) :
    (if e.num_hashes = 0 then h == e.hash
     else
       match (if e.transactions.isEmpty then none
              else some (hash_transactions p e.transactions)) with
       | some mixin => (Poh.new h).record p mixin == e.hash
       | none => (Poh.new h).tick p == e.hash)
    = compare_hashes p h e := by
  by_cases h0 : e.num_hashes = 0 <;> by_cases he : e.transactions.isEmpty <;>
    simp [compare_hashes, h0, he]

theorem gpu_verdict_iff (caps : PohCaps) (p : PohPrims) (es : List Entry)
    (start_hash : Nat) (secp : Bool) (hgpu : caps.gpu_api = true)
    (hsig : verify_transaction_signatures es secp = true) :
    ((finish_verify p (start_verify caps p es start_hash secp) es).1 = true) ↔
      ∀ k, k < es.length →
        compare_hashes p
          (p.hashStep^[(es.getD k default).num_hashes - 1]
            (((genesisEntry start_hash :: es).getD k default).hash))
          (es.getD k default) = true := by
  have hstv : start_verify caps p es start_hash secp =
      { verification_status := EntryVerificationStatus.Pending
        poh_duration_us := 0
        transaction_duration_us := 0
        device_verification_data := DeviceVerificationData.GPU
          { hashes := ((genesisEntry start_hash :: es).map Entry.hash).take es.length
            num_hashes_vec := es.map (fun (e : Entry) => e.num_hashes - 1)
            tx_hashes := es.map (fun (e : Entry) =>
              if e.transactions.isEmpty then none
              else some (hash_transactions p e.transactions)) } } := by
    simp [start_verify, hsig, hgpu]
  rw [hstv]
  have hfin : (finish_verify p
      { verification_status := EntryVerificationStatus.Pending
        poh_duration_us := 0
        transaction_duration_us := 0
        device_verification_data := DeviceVerificationData.GPU
          { hashes := ((genesisEntry start_hash :: es).map Entry.hash).take es.length
            num_hashes_vec := es.map (fun (e : Entry) => e.num_hashes - 1)
            tx_hashes := es.map (fun (e : Entry) =>
              if e.transactions.isEmpty then none
              else some (hash_transactions p e.transactions)) } } es).1 =
      (((poh_verify_many p
            (((genesisEntry start_hash :: es).map Entry.hash).take es.length)
            (es.map (fun (e : Entry) => e.num_hashes - 1))).zip
          (es.map (fun (e : Entry) =>
            if e.transactions.isEmpty then none
            else some (hash_transactions p e.transactions)))).zip es).all
        (fun x =>
          if x.2.num_hashes = 0 then x.1.1 == x.2.hash
          else
            match x.1.2 with
            | some mixin => (Poh.new x.1.1).record p mixin == x.2.hash
            | none => (Poh.new x.1.1).tick p == x.2.hash) := rfl
  rw [hfin,
    zip3_all_getD_iff
      (poh_verify_many p
        (((genesisEntry start_hash :: es).map Entry.hash).take es.length)
        (es.map (fun (e : Entry) => e.num_hashes - 1)))
      (es.map (fun (e : Entry) =>
        if e.transactions.isEmpty then none
        else some (hash_transactions p e.transactions)))
      es
      (fun x =>
        if x.2.num_hashes = 0 then x.1.1 == x.2.hash
        else
          match x.1.2 with
          | some mixin => (Poh.new x.1.1).record p mixin == x.2.hash
          | none => (Poh.new x.1.1).tick p == x.2.hash)]
  have hlen1 : (poh_verify_many p
      (((genesisEntry start_hash :: es).map Entry.hash).take es.length)
      (es.map (fun (e : Entry) => e.num_hashes - 1))).length = es.length := by
    simp only [poh_verify_many, List.length_zipWith, List.length_take,
      List.length_map, List.length_cons]
    omega
  have hlen2 : (es.map (fun (e : Entry) =>
      if e.transactions.isEmpty then none
      else some (hash_transactions p e.transactions))).length = es.length := by
    simp
  constructor
  · intro h k hk
    have h2 := h k (by omega) (by omega) hk
    simp only at h2
    rw [gpu_lane_eq p es start_hash k hk,
      map_getD_of_lt (fun (e : Entry) =>
        if e.transactions.isEmpty then none
        else some (hash_transactions p e.transactions)) es k hk,
      gpu_body_eq_compare] at h2
    exact h2
  · intro h i hi1 hi2 hi3
    simp only
    rw [gpu_lane_eq p es start_hash i hi3,
      map_getD_of_lt (fun (e : Entry) =>
        if e.transactions.isEmpty then none
        else some (hash_transactions p e.transactions)) es i hi3,
      gpu_body_eq_compare]
    exact h i hi3

theorem verify_cpu_generic_not_pending (p : PohPrims) (es : List Entry)
    (start_hash : Nat) :
    (verify_cpu_generic p es start_hash).verification_status
      ≠ EntryVerificationStatus.Pending := by
  unfold verify_cpu_generic
  dsimp only
  split <;> simp

theorem verify_cpu_x86_simd_not_pending (p : PohPrims) (es : List Entry)
    (start_hash W : Nat) :
    (verify_cpu_x86_simd p es start_hash W).verification_status
      ≠ EntryVerificationStatus.Pending := by
  unfold verify_cpu_x86_simd
  dsimp only
  split <;> simp

theorem status_eq_of_success_iff (s t : EntryVerificationStatus)
    (hs : s ≠ EntryVerificationStatus.Pending)
    (ht : t ≠ EntryVerificationStatus.Pending)
    (h : s = EntryVerificationStatus.Success ↔ t = EntryVerificationStatus.Success) :
    s = t := by
  cases s <;> cases t <;> simp_all

theorem lane_check_iff_verify (p : PohPrims) (es : List Entry) (start_hash : Nat)
    (hI2 : ∀ e ∈ es, e.num_hashes ≠ 0 ∨ e.transactions.isEmpty = true) :
    (∀ k, k < es.length →
        compare_hashes p
          (p.hashStep^[(es.getD k default).num_hashes - 1]
            (((genesisEntry start_hash :: es).getD k default).hash))
          (es.getD k default) = true) ↔
      (∀ i, i < es.length →
        (es.getD i default).verify p
          (((genesisEntry start_hash :: es).getD i default).hash) = true) := by
  have hpt : ∀ k, k < es.length →
      compare_hashes p
        (p.hashStep^[(es.getD k default).num_hashes - 1]
          (((genesisEntry start_hash :: es).getD k default).hash))
        (es.getD k default)
      = (es.getD k default).verify p
          (((genesisEntry start_hash :: es).getD k default).hash) := by
    intro k hk
    apply compare_hashes_iterate
    apply hI2
    rw [List.getD_eq_getElem _ _ hk]
    exact List.getElem_mem hk
  constructor
  · intro h k hk
    rw [← hpt k hk]
    exact h k hk
  · intro h k hk
    rw [hpt k hk]
    exact h k hk

/-- C5 (amended): for every slice whose entries all satisfy invariant
I2 (`num_hashes > 0` or no transactions), the wide-SIMD backend (at
either lane width) returns the same verdict as the scalar backend, and
the GPU backend (`start_verify` with the GPU entry point available
followed by `finish_verify`) returns `true` exactly when the scalar
backend returns `Success`.  Without the I2 restriction the backends
can disagree (see the counterexample). -/
theorem backends_agree (p : PohPrims) (caps : PohCaps) (es : List Entry)
    (start_hash : Nat) (secp256k1_program_enabled : Bool) (simd_len : Nat)
    (hI2 : ∀ e ∈ es, e.num_hashes ≠ 0 ∨ e.transactions.isEmpty = true)
    (hW : 0 < simd_len)
    (hgpu : caps.gpu_api = true)
    (hsig : verify_transaction_signatures es secp256k1_program_enabled = true) :
    (verify_cpu_x86_simd p es start_hash simd_len).verification_status
        = (verify_cpu_generic p es start_hash).verification_status
    ∧ ((finish_verify p
          (start_verify caps p es start_hash secp256k1_program_enabled) es).1 = true
        ↔ (verify_cpu_generic p es start_hash).verification_status
            = EntryVerificationStatus.Success) := by
  constructor
  · apply status_eq_of_success_iff
    · exact verify_cpu_x86_simd_not_pending p es start_hash simd_len
    · exact verify_cpu_generic_not_pending p es start_hash
    · rw [verify_cpu_x86_simd_success_iff p es start_hash simd_len hW,
        verify_cpu_generic_success_iff p es start_hash]
      exact lane_check_iff_verify p es start_hash hI2
  · rw [gpu_verdict_iff caps p es start_hash secp256k1_program_enabled hgpu hsig,
      verify_cpu_generic_success_iff p es start_hash]
    exact lane_check_iff_verify p es start_hash hI2

/-- Witness for C5 (amended) at the valid one-tick slice `esGood` with
lane width 8 and all backends available. -/
theorem backends_agree_witness :
    ((verify_cpu_x86_simd P0 esGood 5 8).verification_status
        = (verify_cpu_generic P0 esGood 5).verification_status)
    ∧ (((finish_verify P0 (start_verify capsAll P0 esGood 5 true) esGood).1 = true)
        ↔ (verify_cpu_generic P0 esGood 5).verification_status
            = EntryVerificationStatus.Success) :=
  backends_agree P0 capsAll esGood 5 true 8 (by decide) (by decide) (by decide)
    (by decide)

set_option maxRecDepth 8000 in
/-- Counterexample to C5 as stated: on the 128-entry slice
`esBackends` (long enough for every backend's eligibility threshold,
signatures all valid) whose first entry has `num_hashes = 0` with a
non-empty transaction list and hash equal to the start hash, the
scalar backend fails (its `Entry::verify` runs a record step) while
both wide-SIMD widths and the GPU backend succeed (their finalizing
check treats `num_hashes == 0` as plain hash equality). -/
theorem backends_disagree_counterexample :
    128 ≤ esBackends.length
    ∧ verify_transaction_signatures esBackends true = true
    ∧ (verify_cpu_generic P0 esBackends 5).verification_status
        = EntryVerificationStatus.Failure
    ∧ (verify_cpu_x86_simd P0 esBackends 5 16).verification_status
        = EntryVerificationStatus.Success
    ∧ (verify_cpu_x86_simd P0 esBackends 5 8).verification_status
        = EntryVerificationStatus.Success
    ∧ (finish_verify P0 (start_verify capsAll P0 esBackends 5 true) esBackends).1
        = true := by
  refine ⟨by decide, by decide, by decide, by decide, by decide, by decide⟩

/-- C10: verifying the empty slice succeeds for every start hash and
every capability set. -/
theorem slice_verify_nil (caps : PohCaps) (p : PohPrims) (start_hash : Nat) :
    EntrySlice.verify caps p [] start_hash = true := by
  cases hg : caps.gpu_api <;> cases hs : caps.simd_api <;>
    simp [EntrySlice.verify, start_verify, verify_transaction_signatures, hg, hs,
      verify_cpu, verify_cpu_generic, finish_verify, poh_verify_many]

end Solana
